import Mathlib

/-!
Verification of `src/fast_screen_variants.py` (MarkerWizard).

The Python module operates on pandas DataFrames.  We embed a DataFrame as a
`Table`: a list of column names together with a list of `Row` records.  A cell
that pandas would hold as `NaN` is embedded as `none`; numeric values are
embedded as `Int` (positions) and `ℚ` (QUAL / quality scores).  The vectorized
pandas boolean masks of the source are embedded row-wise, which is exactly the
semantics of the column-wise operations used there.
-/

namespace MarkerWizard

/-- One row of the variant table.  Identity fields come first, then the
per-stage annotation fields that `fast_screen_single_chromosome` and the
pipeline assign (`primer_compliant`, `amplicon_start`, `amplicon_end`,
`displacement`, `quality_score`).  `alleles` is the row's contents under the
`*_allele` columns, as an association list from column name to cell value. -/
structure Row where
  chrom : String
  pos : Int
  alleles : List (String × Option String) := []
  overall_reliability : Option String := none
  complete_info : Bool := false
  has_f2_data : Bool := false
  qual : Option ℚ := none
  primer_compliant : Bool := false
  amplicon_start : Option Int := none
  amplicon_end : Option Int := none
  displacement : Int := 0
  quality_score : Option ℚ := none
  deriving DecidableEq

/-- A DataFrame: its column names and its rows. -/
structure Table where
  cols : List String
  rows : List Row
  deriving DecidableEq

/-- Reading an allele cell of a row; a column absent from the association list
reads as `none` (NaN). -/
def getAllele (r : Row) (c : String) : Option String :=
  match r.alleles.lookup c with
  | some a => a
  | none => none

/-- Python's `str.endswith`: the last characters of `s` are exactly those of
`suffix`. -/
def strEndsWith (s suffix : String) : Bool :=
  if suffix.data.length ≤ s.data.length then
    decide (s.data.drop (s.data.length - suffix.data.length) = suffix.data)
  else false

/-- `allele_cols = [col for col in df.columns if col.endswith('_allele')]`. -/
def alleleColsOf (tbl : Table) : List String :=
  tbl.cols.filter (fun c => strEndsWith c "_allele")

/-- `target_col = f"{target_parent}_allele"`. -/
def targetColOf (target_parent : String) : String :=
  target_parent ++ "_allele"

/-- `(x != 'N') & (x.notna())`: the cell holds a real call, not the `'N'`
no-call sentinel and not NaN. -/
def validCall (a : Option String) : Bool :=
  match a with
  | some s => decide (s ≠ "N")
  | none => false

/-- pandas `!=` on two cells: comparisons involving NaN yield `True`. -/
def pandasNe (a b : Option String) : Bool :=
  match a, b with
  | some x, some y => decide (x ≠ y)
  | _, _ => true

/-- Row-wise reading of the vectorized mask built by
`fast_filter_diagnostic_variants`: `valid_target` and, for every other allele
column, `(target != other) & (other != 'N') & (other.notna())`. -/
def isDiagnostic (otherCols : List String) (targetCol : String) (r : Row) : Bool :=
  validCall (getAllele r targetCol) &&
    otherCols.all (fun c =>
      pandasNe (getAllele r targetCol) (getAllele r c) && validCall (getAllele r c))

/-- The `logging.error` branch of `fast_filter_diagnostic_variants`: taken
exactly when the target parent's allele column is absent. -/
def diagnosticErrorLogged (tbl : Table) (target_parent : String) : Bool :=
  decide (targetColOf target_parent ∉ alleleColsOf tbl)

/-- `fast_filter_diagnostic_variants(df, target_parent)`: on a missing target
column it logs an error and returns an empty DataFrame; otherwise it keeps the
rows passing the diagnostic mask. -/
def fast_filter_diagnostic_variants (tbl : Table) (target_parent : String) : List Row :=
  let alleleCols := alleleColsOf tbl
  let targetCol := targetColOf target_parent
  if targetCol ∈ alleleCols then
    let otherCols := alleleCols.filter (fun c => decide (c ≠ targetCol))
    tbl.rows.filter (isDiagnostic otherCols targetCol)
  else []

/-- `np.any((others >= low) & (others <= high))`: some position falls in the
inclusive region `[low, high]`. -/
def hasConflict (others : List Int) (low high : Int) : Bool :=
  others.any (fun p => decide (low ≤ p ∧ p ≤ high))

/-- Both primer regions of the window `[s, e]` are conflict-free: the forward
region is `[s, s + psize]`, the reverse region `[e - psize, e]`. -/
def windowOK (others : List Int) (psize s e : Int) : Bool :=
  !hasConflict others s (s + psize) && !hasConflict others (e - psize) e

/-- `positions[positions != pos]`: the source excludes the current variant's
own position from the conflict set by value. -/
def othersOf (positions : List Int) (pos : Int) : List Int :=
  positions.filter (fun p => decide (p ≠ pos))

/-- The sequence of window shifts tried by the displacement search, flattening
`for step in range(1, displacement_steps+1): for direction in [-1, 1]` in the
order the loops (with their `break`s) visit them. -/
def shiftList (dsteps : Nat) : List Int :=
  (List.range dsteps).flatMap (fun k => [-(k + 1 : Int), (k + 1 : Int)])

/-- Result of placing one variant: the four cells the source writes. -/
structure Placement where
  compliant : Bool
  ampStart : Option Int
  ampEnd : Option Int
  displacement : Int
  deriving DecidableEq

/-- The displacement loop: try each shift in order; skip it unless the
variant's own position stays inside the shifted window (`continue`), then test
both primer regions; stop at the first success. -/
def findShift (others : List Int) (psize pos s e : Int) : List Int → Option Int
  | [] => none
  | sh :: rest =>
    if decide (s + sh ≤ pos ∧ pos ≤ e + sh) && windowOK others psize (s + sh) (e + sh) then
      some sh
    else findShift others psize pos s e rest

/-- Placement of one variant as the source performs it: the centered window
`[pos - half, pos + half]` first (accepted with displacement 0), then the
displacement search; on total failure the row keeps `primer_compliant = False`,
unset boundaries and displacement 0. -/
def placeVariant (others : List Int) (psize half : Int) (dsteps : Nat) (pos : Int) : Placement :=
  let s := pos - half
  let e := pos + half
  if windowOK others psize s e then ⟨true, some s, some e, 0⟩
  else
    match findShift others psize pos s e (shiftList dsteps) with
    | some sh => ⟨true, some (s + sh), some (e + sh), sh⟩
    | none => ⟨false, none, none, 0⟩

/-- Write a placement into a row's annotation cells. -/
def applyPlacement (r : Row) (pl : Placement) : Row :=
  { r with
    primer_compliant := pl.compliant
    amplicon_start := pl.ampStart
    amplicon_end := pl.ampEnd
    displacement := pl.displacement }

/-- The body of the per-variant loop of `fast_screen_single_chromosome`:
`positions` is the snapshot `df['POS'].values` taken before the loop. -/
def screenRow (positions : List Int) (psize asize dsteps : Nat) (r : Row) : Row :=
  applyPlacement r
    (placeVariant (othersOf positions r.pos) (psize : Int) ((asize / 2 : Nat) : Int) dsteps r.pos)

/-- `fast_screen_single_chromosome(chrom_data, primer_size, amplicon_size,
displacement_steps)`. -/
def fast_screen_single_chromosome (rows : List Row) (psize asize dsteps : Nat) : List Row :=
  rows.map (screenRow (rows.map (·.pos)) psize asize dsteps)

/-- Code-point comparison of characters, as Python compares the characters of
two strings. -/
def charLt (a b : Char) : Bool :=
  decide (a.toNat < b.toNat)

/-- Lexicographic code-point comparison of character lists (Python string
`<=`). -/
def charListLe : List Char → List Char → Bool
  | [], _ => true
  | _ :: _, [] => false
  | x :: xs, y :: ys =>
    if charLt x y then true
    else if charLt y x then false
    else charListLe xs ys

/-- Python string `<=` (code-point lexicographic), the order pandas uses to
sort string group keys and string sort columns. -/
def strLe (a b : String) : Bool :=
  charListLe a.data b.data

/-- `strLe` as a relation, for `List.insertionSort`. -/
def strLeP (a b : String) : Prop :=
  strLe a b = true

instance : DecidableRel strLeP := fun a b => by
  unfold strLeP
  infer_instance

/-- The distinct chromosome keys of `df.groupby('CHROM')`; pandas `groupby`
sorts the group keys (`sort=True` is the default). -/
def chromKeys (rows : List Row) : List String :=
  List.insertionSort strLeP (rows.map (·.chrom)).dedup

/-- `fast_screen_variants_parallel(df, ..., n_workers)`: with a single
chromosome group or `n_workers == 1` the whole frame is passed to
`fast_screen_single_chromosome` in one call; otherwise each chromosome group
is screened separately and the results are concatenated in group-key order. -/
def fast_screen_variants_parallel (rows : List Row) (psize asize dsteps n_workers : Nat) :
    List Row :=
  let chroms := chromKeys rows
  if chroms.length == 1 || n_workers == 1 then
    fast_screen_single_chromosome rows psize asize dsteps
  else
    ((chroms.map (fun c =>
      fast_screen_single_chromosome (rows.filter (fun r => decide (r.chrom = c)))
        psize asize dsteps)).flatten)

/-- The `last_pos` dictionary of `fast_apply_spacing_filter`, as an association
list (the most recent entry for a chromosome shadows older ones). -/
def lookupPos : List (String × Int) → String → Option Int
  | [], _ => none
  | (k, v) :: rest, c => if c = k then some v else lookupPos rest c

/-- The selection loop of `fast_apply_spacing_filter`: walk the sorted rows,
keep a row when its chromosome has no entry in `last_pos` yet or when it sits
at least `min_spacing` beyond that entry, updating `last_pos` on selection. -/
def spacingSweep (min_spacing : Int) : List Row → List (String × Int) → List Row
  | [], _ => []
  | r :: rs, lastPos =>
    match lookupPos lastPos r.chrom with
    | none => r :: spacingSweep min_spacing rs ((r.chrom, r.pos) :: lastPos)
    | some lp =>
      if min_spacing ≤ r.pos - lp then
        r :: spacingSweep min_spacing rs ((r.chrom, r.pos) :: lastPos)
      else spacingSweep min_spacing rs lastPos

/-- The `df.sort_values(['CHROM', 'POS'])` key order on rows: `CHROM` first
(Python string order), then `POS`. -/
def rowLe (a b : Row) : Prop :=
  if a.chrom = b.chrom then a.pos ≤ b.pos else strLeP a.chrom b.chrom

instance : DecidableRel rowLe := fun a b => by
  unfold rowLe
  infer_instance

/-- `df.sort_values(['CHROM', 'POS'])`. -/
def sortRows (rows : List Row) : List Row :=
  List.insertionSort rowLe rows

/-- `fast_apply_spacing_filter(df, min_spacing)`. -/
def fast_apply_spacing_filter (rows : List Row) (min_spacing : Int) : List Row :=
  if rows.isEmpty then rows
  else spacingSweep min_spacing (sortRows rows) []

/-- The `reliability_values` dictionary `{'low': 1, 'medium': 2, 'high': 3}`,
as a partial map. -/
def relValue (s : String) : Option Nat :=
  if s = "low" then some 1
  else if s = "medium" then some 2
  else if s = "high" then some 3
  else none

/-- `reliability_values.get(row['overall_reliability'], 1)`: the dictionary
default 1 covers both an unknown tier string and a NaN cell. -/
def relBase (r : Option String) : Nat :=
  match r with
  | some s => (relValue s).getD 1
  | none => 1

/-- `fast_quality_score(row, target_parent)`.  The `target_parent` argument is
accepted and unused, as in the source.  A NaN `QUAL` fails the `pd.notna`
check, so it contributes nothing. -/
def fast_quality_score (r : Row) (target_parent : String) : ℚ :=
  let score : ℚ := relBase r.overall_reliability
  let score := if r.complete_info then score + 2 else score
  let score := if r.has_f2_data then score + 1 else score
  let score :=
    match r.qual with
    | some q => score + min 2 (q / 100)
    | none => score
  if r.primer_compliant then score + 1 else score

/-- Row-wise reading of the step-1 quality mask of `fast_comprehensive_screen`:
`complete_info == True`, `overall_reliability` maps (under
`reliability_values`) to a value `>= min_rel_value` (a NaN mapping fails the
comparison), and `has_f2_data == True`. -/
def qualityGate (minv : Nat) (r : Row) : Bool :=
  r.complete_info &&
    (match r.overall_reliability with
     | some s =>
       match relValue s with
       | some v => decide (minv ≤ v)
       | none => false
     | none => false) &&
    r.has_f2_data

/-- Tie-break on the `QUAL` column for the final descending sort: higher
`QUAL` first, NaN `QUAL` last (`na_position='last'`). -/
def qualTieGe (a b : Option ℚ) : Bool :=
  match a, b with
  | some x, some y => decide (y ≤ x)
  | some _, none => true
  | none, some _ => false
  | none, none => true

/-- Comparison used by the final
`sort_values(['quality_score', 'QUAL'], ascending=[False, False])` (see
`qualTieGe` for the `QUAL` tie-break). -/
def finalLe (a b : Row) : Prop :=
  b.quality_score.getD 0 < a.quality_score.getD 0 ∨
    (a.quality_score.getD 0 = b.quality_score.getD 0 ∧ qualTieGe a.qual b.qual = true)

instance : DecidableRel finalLe := fun a b => by
  unfold finalLe
  infer_instance

/-- The step-5 scoring assignment
`spaced['quality_score'] = spaced.apply(lambda row: fast_quality_score(row, target_parent), axis=1)`. -/
def scoreRows (rows : List Row) (target_parent : String) : List Row :=
  rows.map (fun r => { r with quality_score := some (fast_quality_score r target_parent) })

/-- The spacing / scoring / ranking tail of the pipeline, shared by the
primer-compliant set and by the fallback set. -/
def lateStages (rows : List Row) (target_parent : String) (min_spacing : Int)
    (max_snps : Nat) : List Row :=
  let spaced := fast_apply_spacing_filter rows min_spacing
  if spaced.isEmpty then []
  else
    let final := List.insertionSort finalLe (scoreRows spaced target_parent)
    if max_snps < final.length then final.take max_snps else final

/-- The observable outcome of the pipeline: the returned rows, and whether the
warning-level fallback signal (`logging.warning`) was emitted. -/
structure PipelineOut where
  rows : List Row
  fallbackWarning : Bool
  deriving DecidableEq

/-- `fast_comprehensive_screen(df, ...)`.  `reliability_values[min_reliability]`
raises `KeyError` on an unknown tier, embedded as `none`. -/
def fast_comprehensive_screen (tbl : Table) (target_parent min_reliability : String)
    (min_spacing : Int) (max_snps psize asize dsteps n_workers : Nat) : Option PipelineOut :=
  match relValue min_reliability with
  | none => none
  | some minv =>
    let filtered := tbl.rows.filter (qualityGate minv)
    if filtered.isEmpty then some ⟨[], false⟩
    else
      let diagnostic := fast_filter_diagnostic_variants ⟨tbl.cols, filtered⟩ target_parent
      if diagnostic.isEmpty then some ⟨[], false⟩
      else
        let screened := fast_screen_variants_parallel diagnostic psize asize dsteps n_workers
        let compliant := screened.filter (·.primer_compliant)
        let kept := if compliant.isEmpty then diagnostic else compliant
        let warn := compliant.isEmpty
        let spaced := fast_apply_spacing_filter kept min_spacing
        if spaced.isEmpty then some ⟨[], warn⟩
        else
          let final := List.insertionSort finalLe (scoreRows spaced target_parent)
          some ⟨if max_snps < final.length then final.take max_snps else final, warn⟩

/-! Specification-side definitions.  Each is written from the words of a
claim (for refinement comparison with the code-side definitions above), and is
named and documented as such. -/

/-- Modelled from the claim wording (C5, conflict condition): some other
variant position lies in the forward primer region
`[start, start + primer_size]` or the reverse primer region
`[end - primer_size, end]`, boundaries inclusive; `specWindowFree` holds when
no position does. -/
def specWindowFree (others : List Int) (psize s e : Int) : Bool :=
  decide (¬ ∃ p ∈ others, (s ≤ p ∧ p ≤ s + psize) ∨ (e - psize ≤ p ∧ p ≤ e))

/-- Modelled from the claim wording (C5): try the centered window
(displacement 0) and then the displaced windows in the fixed order
`-1, +1, -2, +2, ...`; return the first candidate that still contains the
variant's position and whose two primer regions are free of other variant
positions; if none exists, the variant is not compliant, with boundaries
unset and displacement 0. -/
def firstFitPlacement (others : List Int) (psize half : Int) (dsteps : Nat) (pos : Int) :
    Placement :=
  let s := pos - half
  let e := pos + half
  match (0 :: shiftList dsteps).find? (fun sh =>
      decide (s + sh ≤ pos ∧ pos ≤ e + sh) &&
        specWindowFree others psize (s + sh) (e + sh)) with
  | some sh => ⟨true, some (s + sh), some (e + sh), sh⟩
  | none => ⟨false, none, none, 0⟩

/-- Modelled from the claim wording (C7): the greedy left-to-right sweep over
one chromosome's rows, carrying the last selected position: a row is selected
iff no selection exists yet or it sits at least `min_spacing` beyond the last
selected position. -/
def specGreedySweep (min_spacing : Int) : List Row → Option Int → List Row
  | [], _ => []
  | r :: rs, none => r :: specGreedySweep min_spacing rs (some r.pos)
  | r :: rs, some lp =>
    if min_spacing ≤ r.pos - lp then r :: specGreedySweep min_spacing rs (some r.pos)
    else specGreedySweep min_spacing rs (some lp)

/-- Modelled from the claim wording (C1): keep a row iff the target allele is
a valid call and, for every other allele column, that column's allele is
either itself a no-call or differs from the target allele. -/
def claimDiagnosticKeep (otherCols : List String) (targetCol : String) (r : Row) : Bool :=
  validCall (getAllele r targetCol) &&
    otherCols.all (fun c =>
      !validCall (getAllele r c) || decide (getAllele r c ≠ getAllele r targetCol))

/-! Concrete inputs used by counterexamples and witnesses. -/

/-- A bare variant row: chromosome and position only. -/
def mkVar (c : String) (p : Int) : Row :=
  { chrom := c, pos := p }

/-- A row whose target allele is a valid call and whose only other sample is a
no-call `'N'`. -/
def rowNocallOther : Row :=
  { chrom := "chr1", pos := 7,
    alleles := [("664c_allele", some "A"), ("767c_allele", some "N")] }

/-- A one-row table around `rowNocallOther`. -/
def tblNocallOther : Table :=
  { cols := ["CHROM", "664c_allele", "767c_allele"], rows := [rowNocallOther] }

/-- A row whose target allele is a valid call differing from the other
sample's valid call. -/
def rowDiffOther : Row :=
  { chrom := "chr1", pos := 9,
    alleles := [("664c_allele", some "A"), ("767c_allele", some "G")] }

/-- A one-row table around `rowDiffOther`. -/
def tblDiffOther : Table :=
  { cols := ["CHROM", "664c_allele", "767c_allele"], rows := [rowDiffOther] }

/-- A gate-passing row carrying no `664c_allele` column. -/
def rowNoTarget : Row :=
  { chrom := "chr1", pos := 5, alleles := [("767c_allele", some "G")],
    overall_reliability := some "high", complete_info := true, has_f2_data := true }

/-- A table whose columns lack the target parent's allele column. -/
def tblNoTarget : Table :=
  { cols := ["CHROM", "767c_allele"], rows := [rowNoTarget] }

/-- Two variants on different chromosomes whose positions interfere
numerically: 1140 falls in the reverse primer region of the default centered
window of 1000. -/
def crossChromRows : List Row :=
  [mkVar "chr1" 1000, mkVar "chr2" 1140]

/-- Two single-variant chromosomes listed with `"chrB"` first. -/
def unsortedChromRows : List Row :=
  [mkVar "chrB" 100, mkVar "chrA" 200]

/-- A gate-passing diagnostic row at position 100 on one chromosome. -/
def rowPipe1 : Row :=
  { chrom := "chr1", pos := 100,
    alleles := [("664c_allele", some "A"), ("767c_allele", some "G")],
    overall_reliability := some "high", complete_info := true, has_f2_data := true }

/-- A gate-passing diagnostic row at position 103 on the same chromosome. -/
def rowPipe2 : Row :=
  { chrom := "chr1", pos := 103,
    alleles := [("664c_allele", some "C"), ("767c_allele", some "G")],
    overall_reliability := some "high", complete_info := true, has_f2_data := true }

/-- A two-row table in which no variant can be primer compliant at
`primer_size = 5`, `amplicon_size = 10`, `displacement_steps = 1`. -/
def tblPipe : Table :=
  { cols := ["CHROM", "664c_allele", "767c_allele"], rows := [rowPipe1, rowPipe2] }

/-- A fully annotated row for exercising the quality score formula. -/
def rowScore : Row :=
  { chrom := "chr1", pos := 1, overall_reliability := some "high",
    complete_info := true, has_f2_data := true, qual := some 50, primer_compliant := true }

/-- A row whose reliability tier is not one of low/medium/high. -/
def rowOddRel : Row :=
  { chrom := "chr1", pos := 2, overall_reliability := some "uncertain",
    complete_info := true, has_f2_data := false }

/-! Order facts about the comparators, needed to reason about the sorts. -/

theorem charLt_trans {a b c : Char} (h1 : charLt a b = true) (h2 : charLt b c = true) :
    charLt a c = true := by
  unfold charLt at h1 h2 ⊢
  simp only [decide_eq_true_eq] at h1 h2 ⊢
  omega

theorem charLt_asymm {a b : Char} (h : charLt a b = true) : charLt b a = false := by
  unfold charLt at h ⊢
  simp only [decide_eq_true_eq] at h
  simp only [decide_eq_false_iff_not]
  omega

theorem char_eq_of_not_charLt {a b : Char} (h1 : charLt a b = false)
    (h2 : charLt b a = false) : a = b := by
  unfold charLt at h1 h2
  simp only [decide_eq_false_iff_not, Nat.not_lt] at h1 h2
  exact Char.ext (UInt32.toNat.inj (Nat.le_antisymm h2 h1))

theorem charListLe_total : ∀ xs ys : List Char, charListLe xs ys = true ∨ charListLe ys xs = true
  | [], _ => Or.inl rfl
  | _ :: _, [] => Or.inr rfl
  | x :: xs, y :: ys => by
    cases h1 : charLt x y
    · cases h2 : charLt y x
      · simpa [charListLe, h1, h2] using charListLe_total xs ys
      · simp [charListLe, h1, h2]
    · simp [charListLe, h1]

theorem charListLe_trans : ∀ xs ys zs : List Char, charListLe xs ys = true →
    charListLe ys zs = true → charListLe xs zs = true
  | [], _, _, _, _ => rfl
  | _ :: _, [], _, h1, _ => by simp [charListLe] at h1
  | _ :: _, _ :: _, [], _, h2 => by simp [charListLe] at h2
  | x :: xs, y :: ys, z :: zs, h1, h2 => by
    cases hxy : charLt x y
    · cases hyx : charLt y x
      · have hx := char_eq_of_not_charLt hxy hyx
        subst hx
        simp only [charListLe, hxy, if_neg, Bool.false_eq_true, if_false] at h1
        cases hxz : charLt x z
        · cases hzx : charLt z x
          · have hz := char_eq_of_not_charLt hxz hzx
            subst hz
            simp only [charListLe, hxz, Bool.false_eq_true, if_false] at h2 ⊢
            exact charListLe_trans xs ys zs h1 h2
          · simp only [charListLe, hxz, hzx, Bool.false_eq_true, if_false, if_true] at h2
        · simp [charListLe, hxz]
      · simp [charListLe, hxy, hyx] at h1
    · cases hyz : charLt y z
      · cases hzy : charLt z y
        · have hz := char_eq_of_not_charLt hyz hzy
          subst hz
          simp [charListLe, hxy]
        · simp [charListLe, hyz, hzy] at h2
      · have hxz := charLt_trans hxy hyz
        simp [charListLe, hxz]

theorem charListLe_antisymm : ∀ xs ys : List Char, charListLe xs ys = true →
    charListLe ys xs = true → xs = ys
  | [], [], _, _ => rfl
  | [], _ :: _, _, h2 => by simp [charListLe] at h2
  | _ :: _, [], h1, _ => by simp [charListLe] at h1
  | x :: xs, y :: ys, h1, h2 => by
    cases hxy : charLt x y
    · cases hyx : charLt y x
      · have hx := char_eq_of_not_charLt hxy hyx
        subst hx
        simp only [charListLe, hxy, Bool.false_eq_true, if_false] at h1 h2
        rw [charListLe_antisymm xs ys h1 h2]
      · simp [charListLe, hxy, hyx] at h1
    · have hyx := charLt_asymm hxy
      simp [charListLe, hxy, hyx] at h2

theorem string_eq_of_data_eq {s t : String} (h : s.data = t.data) : s = t := by
  cases s
  cases t
  exact congrArg String.mk h

instance : IsTotal String strLeP where
  total a b := charListLe_total a.data b.data

instance : IsTrans String strLeP where
  trans a b c h1 h2 := charListLe_trans a.data b.data c.data h1 h2

theorem strLe_antisymm {a b : String} (h1 : strLeP a b) (h2 : strLeP b a) : a = b :=
  string_eq_of_data_eq (charListLe_antisymm a.data b.data h1 h2)

instance : IsTotal Row rowLe where
  total a b := by
    unfold rowLe
    by_cases h : a.chrom = b.chrom
    · rw [if_pos h, if_pos h.symm]
      exact le_total a.pos b.pos
    · rw [if_neg h, if_neg (fun hs => h hs.symm)]
      exact charListLe_total a.chrom.data b.chrom.data

instance : IsTrans Row rowLe where
  trans a b c hab hbc := by
    unfold rowLe at hab hbc ⊢
    by_cases h1 : a.chrom = b.chrom
    · by_cases h2 : b.chrom = c.chrom
      · rw [if_pos h1] at hab
        rw [if_pos h2] at hbc
        rw [if_pos (h1.trans h2)]
        exact hab.trans hbc
      · rw [if_neg h2] at hbc
        rw [if_neg (h1 ▸ h2), h1]
        exact hbc
    · by_cases h2 : b.chrom = c.chrom
      · rw [if_neg h1] at hab
        rw [if_neg (h2 ▸ h1), ← h2]
        exact hab
      · rw [if_neg h1] at hab
        rw [if_neg h2] at hbc
        by_cases h3 : a.chrom = c.chrom
        · exfalso
          apply h1
          apply strLe_antisymm hab
          rw [h3]
          exact hbc
        · rw [if_neg h3]
          exact charListLe_trans a.chrom.data b.chrom.data c.chrom.data hab hbc

/-! Facts about the conflict test and the displacement search. -/

theorem hasConflict_iff {others : List Int} {low high : Int} :
    hasConflict others low high = true ↔ ∃ p ∈ others, low ≤ p ∧ p ≤ high := by
  simp [hasConflict]

theorem windowOK_eq_specWindowFree (others : List Int) (psize s e : Int) :
    windowOK others psize s e = specWindowFree others psize s e := by
  rw [Bool.eq_iff_iff]
  simp only [windowOK, specWindowFree, Bool.and_eq_true, Bool.not_eq_true', decide_eq_true_eq,
    hasConflict]
  simp only [List.any_eq_false, decide_eq_true_eq]
  constructor
  · rintro ⟨h1, h2⟩ ⟨p, hp, hc | hc⟩
    · exact h1 p hp hc
    · exact h2 p hp hc
  · intro h
    constructor
    · intro p hp hc
      exact h ⟨p, hp, Or.inl hc⟩
    · intro p hp hc
      exact h ⟨p, hp, Or.inr hc⟩

theorem findShift_eq_find? (others : List Int) (psize pos s e : Int) :
    ∀ l : List Int, findShift others psize pos s e l =
      l.find? (fun sh =>
        decide (s + sh ≤ pos ∧ pos ≤ e + sh) && windowOK others psize (s + sh) (e + sh))
  | [] => rfl
  | sh :: rest => by
    rw [findShift, List.find?_cons]
    cases h : (decide (s + sh ≤ pos ∧ pos ≤ e + sh) && windowOK others psize (s + sh) (e + sh))
    · rw [if_neg (by simp [h])]
      exact findShift_eq_find? others psize pos s e rest
    · rw [if_pos (by simp [h])]

theorem shiftList_ne_zero {dsteps : Nat} {sh : Int} (h : sh ∈ shiftList dsteps) : sh ≠ 0 := by
  unfold shiftList at h
  rw [List.mem_flatMap] at h
  obtain ⟨k, -, hm⟩ := h
  rw [List.mem_cons, List.mem_singleton] at hm
  rcases hm with rfl | rfl
  · omega
  · omega

theorem placeVariant_eq_firstFit (others : List Int) (psize : Int) (asize dsteps : Nat)
    (pos : Int) :
    placeVariant others psize ((asize / 2 : Nat) : Int) dsteps pos =
      firstFitPlacement others psize ((asize / 2 : Nat) : Int) dsteps pos := by
  have hin : (decide (pos - ((asize / 2 : Nat) : Int) ≤ pos ∧
      pos ≤ pos + ((asize / 2 : Nat) : Int))) = true := by
    rw [decide_eq_true_eq]
    omega
  unfold placeVariant firstFitPlacement
  simp only [← windowOK_eq_specWindowFree, List.find?_cons, add_zero, hin, Bool.true_and]
  cases hw : windowOK others psize (pos - ((asize / 2 : Nat) : Int))
      (pos + ((asize / 2 : Nat) : Int))
  · rw [← findShift_eq_find?, if_neg Bool.false_ne_true]
  · rw [if_pos rfl]
    dsimp only
    rw [add_zero, add_zero]

/-- C5: for every variant, screening annotates it with the first window, in
the fixed order centered then `-1, +1, ..., -displacement_steps,
+displacement_steps`, that contains the variant's position and whose two
inclusive primer regions contain no other variant position; on success the
row gets that window's boundaries and displacement, and on failure it is
marked non-compliant with boundaries unset and displacement 0. -/
theorem screening_is_first_fit_placement (rows : List Row) (psize asize dsteps : Nat) :
    fast_screen_single_chromosome rows psize asize dsteps =
      rows.map (fun r => applyPlacement r
        (firstFitPlacement (othersOf (rows.map (·.pos)) r.pos) (psize : Int)
          ((asize / 2 : Nat) : Int) dsteps r.pos)) := by
  unfold fast_screen_single_chromosome screenRow
  exact List.map_congr_left fun r _ => by rw [placeVariant_eq_firstFit]

/-- C4 (amended): the conflict set used for a row is obtained from the
chromosome's position snapshot by removing every entry equal to the row's own
position (exclusion by position value); in particular a duplicate row at the
same position is excluded too, not just the row itself. -/
theorem conflict_set_excludes_by_value (positions : List Int) (pos p : Int) :
    (p ∈ othersOf positions pos ↔ p ∈ positions ∧ p ≠ pos) ∧ pos ∉ othersOf positions pos := by
  constructor
  · simp [othersOf, List.mem_filter]
  · simp [othersOf, List.mem_filter]

/-- C4 (counterexample): with two rows at position 100 (`primer_size = 5`,
`amplicon_size = 10`), the source leaves both primer compliant because each
row's conflict set excludes the duplicate's position 100 by value, even
though 100 lies inside the forward primer region `[95, 100]` of the centered
window and would be a conflict if only the row itself were excluded. -/
theorem duplicate_position_not_conflicting :
    (fast_screen_single_chromosome [mkVar "chr1" 100, mkVar "chr1" 100] 5 10 5).map
        (·.primer_compliant) = [true, true] ∧
      othersOf [100, 100] 100 = [] ∧ hasConflict [100] 95 100 = true := by
  decide

/-- C6 (amended): a screened row carries `displacement = 0` together with
`primer_compliant = True` exactly when its centered window was accepted; a
row that ends non-compliant also carries `displacement = 0` even though its
centered window was rejected. -/
theorem displacement_zero_characterization (positions : List Int) (psize asize dsteps : Nat)
    (r : Row) :
    (((screenRow positions psize asize dsteps r).primer_compliant = true ∧
        (screenRow positions psize asize dsteps r).displacement = 0) ↔
      windowOK (othersOf positions r.pos) (psize : Int)
        (r.pos - ((asize / 2 : Nat) : Int)) (r.pos + ((asize / 2 : Nat) : Int)) = true) ∧
    ((screenRow positions psize asize dsteps r).primer_compliant = false →
      (screenRow positions psize asize dsteps r).displacement = 0 ∧
        windowOK (othersOf positions r.pos) (psize : Int)
          (r.pos - ((asize / 2 : Nat) : Int)) (r.pos + ((asize / 2 : Nat) : Int)) = false) := by
  unfold screenRow applyPlacement placeVariant
  dsimp only
  cases hw : windowOK (othersOf positions r.pos) (psize : Int)
      (r.pos - ((asize / 2 : Nat) : Int)) (r.pos + ((asize / 2 : Nat) : Int))
  · rw [if_neg Bool.false_ne_true]
    cases hf : findShift (othersOf positions r.pos) (psize : Int) r.pos
        (r.pos - ((asize / 2 : Nat) : Int)) (r.pos + ((asize / 2 : Nat) : Int))
        (shiftList dsteps)
    · dsimp only
      simp
    · rename_i sh
      have hmem : sh ∈ shiftList dsteps := by
        rw [findShift_eq_find?] at hf
        exact List.mem_of_find?_eq_some hf
      dsimp only
      simp [shiftList_ne_zero hmem]
  · rw [if_pos rfl]
    dsimp only
    simp

/-- C6 (witness for the amended theorem's conditional part): the variant at
100 among positions `[100, 103]` (`primer_size = 5`, `amplicon_size = 10`,
one displacement step) ends non-compliant with displacement 0 and a rejected
centered window. -/
theorem displacement_zero_characterization_witness :
    (screenRow [100, 103] 5 10 1 (mkVar "chr1" 100)).displacement = 0 ∧
      windowOK (othersOf [100, 103] (mkVar "chr1" 100).pos) ((5 : Nat) : Int)
        ((mkVar "chr1" 100).pos - ((10 / 2 : Nat) : Int))
        ((mkVar "chr1" 100).pos + ((10 / 2 : Nat) : Int)) = false :=
  (displacement_zero_characterization [100, 103] 5 10 1 (mkVar "chr1" 100)).2 (by decide)

/-- C6 (counterexample): after screening `[100, 103]` with `primer_size = 5`,
`amplicon_size = 10` and one displacement step, both rows carry
`displacement = 0` although the centered window of the row at 100 was not
accepted (it conflicts with 103), refuting that displacement 0 occurs exactly
when the centered window was accepted without search. -/
theorem displacement_zero_on_failure :
    (fast_screen_single_chromosome [mkVar "chr1" 100, mkVar "chr1" 103] 5 10 1).map
        (fun r => (r.displacement, r.primer_compliant)) = [(0, false), (0, false)] ∧
      windowOK (othersOf [100, 103] 100) 5 95 105 = false := by
  decide

/-! The diagnostic filter. -/

theorem validCall_iff (o : Option String) :
    validCall o = true ↔ ∃ s, o = some s ∧ s ≠ "N" := by
  cases o <;> simp [validCall]

theorem other_allele_ok_iff (a : String) (o : Option String) :
    (pandasNe (some a) o && validCall o) = true ↔ ∃ b, o = some b ∧ b ≠ "N" ∧ b ≠ a := by
  cases o with
  | none => simp [pandasNe, validCall]
  | some b =>
    simp only [pandasNe, validCall, Bool.and_eq_true, decide_eq_true_eq, Option.some.injEq]
    constructor
    · rintro ⟨h1, h2⟩
      exact ⟨b, rfl, h2, fun h => h1 h.symm⟩
    · rintro ⟨b2, heq, h2, h3⟩
      subst heq
      exact ⟨fun h => h3 h.symm, h2⟩

theorem isDiagnostic_iff (otherCols : List String) (targetCol : String) (r : Row) :
    isDiagnostic otherCols targetCol r = true ↔
      ∃ a, getAllele r targetCol = some a ∧ a ≠ "N" ∧
        ∀ c ∈ otherCols, ∃ b, getAllele r c = some b ∧ b ≠ "N" ∧ b ≠ a := by
  unfold isDiagnostic
  rw [Bool.and_eq_true, validCall_iff, List.all_eq_true]
  constructor
  · rintro ⟨⟨a, ht, haN⟩, hall⟩
    refine ⟨a, ht, haN, fun c hc => ?_⟩
    have h2 := hall c hc
    rw [ht] at h2
    exact (other_allele_ok_iff a _).mp h2
  · rintro ⟨a, ht, haN, hall⟩
    refine ⟨⟨a, ht, haN⟩, fun c hc => ?_⟩
    rw [ht]
    exact (other_allele_ok_iff a _).mpr (hall c hc)

/-- C1 (amended): when the target parent's allele column is present, a row is
retained by `fast_filter_diagnostic_variants` if and only if the target
sample's allele is a valid call (not `'N'`, not missing) and every other
allele column holds a valid call that differs from the target allele.  In
particular a row whose other samples are all no-calls is rejected, not
retained. -/
theorem diagnostic_retained_iff (tbl : Table) (tp : String) (r : Row)
    (h : targetColOf tp ∈ alleleColsOf tbl) :
    r ∈ fast_filter_diagnostic_variants tbl tp ↔
      r ∈ tbl.rows ∧ ∃ a, getAllele r (targetColOf tp) = some a ∧ a ≠ "N" ∧
        ∀ c ∈ alleleColsOf tbl, c ≠ targetColOf tp →
          ∃ b, getAllele r c = some b ∧ b ≠ "N" ∧ b ≠ a := by
  unfold fast_filter_diagnostic_variants
  rw [if_pos h, List.mem_filter, isDiagnostic_iff]
  simp only [List.mem_filter, decide_eq_true_eq, and_imp]

/-- C1 (witness): a row whose target allele `'A'` differs from the other
sample's valid call `'G'` is retained. -/
theorem diagnostic_retained_iff_witness :
    rowDiffOther ∈ fast_filter_diagnostic_variants tblDiffOther "664c" :=
  (diagnostic_retained_iff tblDiffOther "664c" rowDiffOther (by decide)).mpr
    ⟨by decide, "A", rfl, by decide, fun c hc hne => by
      have hcols : alleleColsOf tblDiffOther = ["664c_allele", "767c_allele"] := by decide
      rw [hcols] at hc
      rcases List.mem_cons.mp hc with rfl | hc2
      · exact absurd rfl hne
      · rcases List.mem_singleton.mp hc2 with rfl
        exact ⟨"G", rfl, by decide, by decide⟩⟩

/-- C1 (counterexample): `rowNocallOther` satisfies the claim's retention
condition (valid target allele `'A'`, the only other sample a no-call `'N'`),
yet the source rejects it: the filter output is empty. -/
theorem nocall_other_rejected :
    claimDiagnosticKeep ((alleleColsOf tblNocallOther).filter
        (fun c => decide (c ≠ targetColOf "664c"))) (targetColOf "664c") rowNocallOther = true ∧
      fast_filter_diagnostic_variants tblNocallOther "664c" = [] := by
  decide

/-- C2 (amended): when the target parent's allele column is absent,
`fast_filter_diagnostic_variants` logs an error and returns an empty
DataFrame rather than raising. -/
theorem missing_target_returns_empty (tbl : Table) (tp : String)
    (h : targetColOf tp ∉ alleleColsOf tbl) :
    fast_filter_diagnostic_variants tbl tp = [] ∧ diagnosticErrorLogged tbl tp = true := by
  unfold fast_filter_diagnostic_variants diagnosticErrorLogged
  rw [if_neg h]
  exact ⟨rfl, by simpa using h⟩

/-- C2 (witness): the concrete table without a `664c_allele` column. -/
theorem missing_target_returns_empty_witness :
    fast_filter_diagnostic_variants tblNoTarget "664c" = [] ∧
      diagnosticErrorLogged tblNoTarget "664c" = true :=
  missing_target_returns_empty tblNoTarget "664c" (by decide)

/-- C2 (counterexample): on a non-empty table lacking the target column the
operation returns an empty DataFrame (refuting that it does not return an
empty result), and the surrounding pipeline runs on to return an ordinary
empty result rather than surfacing a failure. -/
theorem missing_target_empty_result :
    fast_filter_diagnostic_variants tblNoTarget "664c" = [] ∧ tblNoTarget.rows ≠ [] ∧
      fast_comprehensive_screen tblNoTarget "664c" "medium" 2000 50 20 300 5 2 =
        some ⟨[], false⟩ := by
  decide

/-! The spacing filter. -/

theorem lookupPos_cons (k : String) (v : Int) (rest : List (String × Int)) (c : String) :
    lookupPos ((k, v) :: rest) c = if c = k then some v else lookupPos rest c := rfl

theorem spacingSweep_cons (ms : Int) (r : Row) (rs : List Row)
    (lastPos : List (String × Int)) :
    spacingSweep ms (r :: rs) lastPos =
      match lookupPos lastPos r.chrom with
      | none => r :: spacingSweep ms rs ((r.chrom, r.pos) :: lastPos)
      | some lp =>
        if ms ≤ r.pos - lp then r :: spacingSweep ms rs ((r.chrom, r.pos) :: lastPos)
        else spacingSweep ms rs lastPos := rfl

theorem specGreedySweep_cons_none (ms : Int) (r : Row) (rs : List Row) :
    specGreedySweep ms (r :: rs) none = r :: specGreedySweep ms rs (some r.pos) := rfl

theorem specGreedySweep_cons_some (ms : Int) (r : Row) (rs : List Row) (lp : Int) :
    specGreedySweep ms (r :: rs) (some lp) =
      if ms ≤ r.pos - lp then r :: specGreedySweep ms rs (some r.pos)
      else specGreedySweep ms rs (some lp) := rfl

/-- Per-chromosome reading of the sweep: restricting the sweep's output to one
chromosome gives exactly the claim's greedy sweep over that chromosome's rows,
seeded with the dictionary's entry for that chromosome. -/
theorem spacingSweep_filter (ms : Int) (c : String) :
    ∀ (l : List Row) (lastPos : List (String × Int)),
      (spacingSweep ms l lastPos).filter (fun r => decide (r.chrom = c)) =
        specGreedySweep ms (l.filter (fun r => decide (r.chrom = c))) (lookupPos lastPos c)
  | [], _ => by
    cases h : lookupPos _ c <;> rfl
  | r :: rs, lastPos => by
    by_cases hc : r.chrom = c
    · cases hl : lookupPos lastPos r.chrom with
      | none =>
        have hlc : lookupPos lastPos c = none := by rw [← hc]; exact hl
        simp only [spacingSweep_cons, hl]
        rw [List.filter_cons_of_pos (by simp [hc]), List.filter_cons_of_pos (by simp [hc]),
          hlc, specGreedySweep_cons_none,
          spacingSweep_filter ms c rs ((r.chrom, r.pos) :: lastPos),
          lookupPos_cons, if_pos hc.symm]
      | some lp =>
        have hlc : lookupPos lastPos c = some lp := by rw [← hc]; exact hl
        simp only [spacingSweep_cons, hl]
        by_cases hms : ms ≤ r.pos - lp
        · rw [if_pos hms, List.filter_cons_of_pos (by simp [hc]),
            List.filter_cons_of_pos (by simp [hc]), hlc, specGreedySweep_cons_some,
            if_pos hms, spacingSweep_filter ms c rs ((r.chrom, r.pos) :: lastPos),
            lookupPos_cons, if_pos hc.symm]
        · rw [if_neg hms, List.filter_cons_of_pos (by simp [hc]), hlc,
            specGreedySweep_cons_some, if_neg hms, ← hlc,
            spacingSweep_filter ms c rs lastPos, hlc]
    · have hupd : ∀ v : Int, lookupPos ((r.chrom, v) :: lastPos) c = lookupPos lastPos c :=
        fun v => by rw [lookupPos_cons, if_neg (fun h => hc h.symm)]
      cases hl : lookupPos lastPos r.chrom with
      | none =>
        simp only [spacingSweep_cons, hl]
        rw [List.filter_cons_of_neg (by simp [hc]), List.filter_cons_of_neg (by simp [hc]),
          spacingSweep_filter ms c rs ((r.chrom, r.pos) :: lastPos), hupd]
      | some lp =>
        simp only [spacingSweep_cons, hl]
        by_cases hms : ms ≤ r.pos - lp
        · rw [if_pos hms, List.filter_cons_of_neg (by simp [hc]),
            List.filter_cons_of_neg (by simp [hc]),
            spacingSweep_filter ms c rs ((r.chrom, r.pos) :: lastPos), hupd]
        · rw [if_neg hms, List.filter_cons_of_neg (by simp [hc])]
          exact spacingSweep_filter ms c rs lastPos

theorem specGreedySweep_chain_some (ms : Int) :
    ∀ (l : List Row) (lp : Int),
      List.Chain' (fun p q => ms ≤ q - p) (lp :: (specGreedySweep ms l (some lp)).map (·.pos))
  | [], lp => List.chain'_singleton lp
  | r :: rs, lp => by
    rw [specGreedySweep_cons_some]
    by_cases hms : ms ≤ r.pos - lp
    · rw [if_pos hms, List.map_cons, List.chain'_cons]
      exact ⟨hms, specGreedySweep_chain_some ms rs r.pos⟩
    · rw [if_neg hms]
      exact specGreedySweep_chain_some ms rs lp

theorem specGreedySweep_chain (ms : Int) :
    ∀ l : List Row, List.Chain' (fun p q => ms ≤ q - p) ((specGreedySweep ms l none).map (·.pos))
  | [] => List.chain'_nil
  | r :: rs => by
    rw [specGreedySweep_cons_none, List.map_cons]
    exact specGreedySweep_chain_some ms rs r.pos

theorem specGreedySweep_sublist (ms : Int) :
    ∀ (l : List Row) (lp : Option Int), (specGreedySweep ms l lp).Sublist l
  | [], lp => by cases lp <;> exact List.Sublist.refl []
  | r :: rs, none => by
    rw [specGreedySweep_cons_none]
    exact (specGreedySweep_sublist ms rs (some r.pos)).cons₂ r
  | r :: rs, some lp => by
    rw [specGreedySweep_cons_some]
    by_cases hms : ms ≤ r.pos - lp
    · rw [if_pos hms]
      exact (specGreedySweep_sublist ms rs (some r.pos)).cons₂ r
    · rw [if_neg hms]
      exact (specGreedySweep_sublist ms rs (some lp)).cons r

/-- C7: per chromosome, the spacing filter's output is exactly the greedy
left-to-right sweep over that chromosome's position-sorted rows (a row is
selected iff it is the chromosome's first or lies at least `min_spacing`
beyond the last selected position), its positions are in ascending order, and
every pair of consecutive selected positions differs by at least
`min_spacing`, with no constraint on the first selected row. -/
theorem spacing_filter_greedy_per_chromosome (rows : List Row) (ms : Int) (c : String) :
    ((fast_apply_spacing_filter rows ms).filter (fun r => decide (r.chrom = c)) =
        specGreedySweep ms ((sortRows rows).filter (fun r => decide (r.chrom = c))) none) ∧
      List.Pairwise (· ≤ ·)
        (((fast_apply_spacing_filter rows ms).filter
          (fun r => decide (r.chrom = c))).map (·.pos)) ∧
      List.Chain' (fun p q => ms ≤ q - p)
        (((fast_apply_spacing_filter rows ms).filter
          (fun r => decide (r.chrom = c))).map (·.pos)) := by
  have heq : (fast_apply_spacing_filter rows ms).filter (fun r => decide (r.chrom = c)) =
      specGreedySweep ms ((sortRows rows).filter (fun r => decide (r.chrom = c))) none := by
    unfold fast_apply_spacing_filter
    by_cases hrows : rows.isEmpty
    · rw [if_pos hrows]
      rw [List.isEmpty_iff] at hrows
      subst hrows
      rfl
    · rw [if_neg hrows]
      have h := spacingSweep_filter ms c (sortRows rows) []
      rw [h]
      rfl
  refine ⟨heq, ?_, ?_⟩
  · rw [heq]
    have hsorted : List.Pairwise rowLe (sortRows rows) :=
      List.sorted_insertionSort rowLe rows
    have hfil : List.Pairwise rowLe
        ((sortRows rows).filter (fun r => decide (r.chrom = c))) :=
      hsorted.filter _
    have hsub := specGreedySweep_sublist ms
      ((sortRows rows).filter (fun r => decide (r.chrom = c))) none
    have hsel : List.Pairwise rowLe
        (specGreedySweep ms ((sortRows rows).filter (fun r => decide (r.chrom = c))) none) :=
      hfil.sublist hsub
    have hchrom : ∀ x ∈ specGreedySweep ms
        ((sortRows rows).filter (fun r => decide (r.chrom = c))) none, x.chrom = c := by
      intro x hx
      have := hsub.subset hx
      rw [List.mem_filter, decide_eq_true_eq] at this
      exact this.2
    have hposle : List.Pairwise (fun a b : Row => a.pos ≤ b.pos)
        (specGreedySweep ms ((sortRows rows).filter (fun r => decide (r.chrom = c))) none) := by
      refine hsel.imp_of_mem ?_
      intro a b ha hb hab
      unfold rowLe at hab
      rw [if_pos ((hchrom a ha).trans (hchrom b hb).symm)] at hab
      exact hab
    exact hposle.map _ (fun a b h => h)
  · rw [heq]
    exact specGreedySweep_chain ms _

/-! The parallel screening coordinator. -/

/-- C3 (amended): `fast_screen_variants_parallel` screens the whole frame in
one `fast_screen_single_chromosome` call whenever `n_workers = 1` or there is
a single chromosome group, so conflict positions then cross chromosome
boundaries; with at least two workers and two chromosome groups it
concatenates the per-chromosome screenings in sorted chromosome-key order
(pandas `groupby` sorts its keys), not in first-encountered order.  The
result is therefore not independent of the worker count. -/
theorem parallel_screening_characterization (rows : List Row)
    (psize asize dsteps n_workers : Nat) :
    (n_workers = 1 →
      fast_screen_variants_parallel rows psize asize dsteps n_workers =
        fast_screen_single_chromosome rows psize asize dsteps) ∧
    ((chromKeys rows).length = 1 →
      fast_screen_variants_parallel rows psize asize dsteps n_workers =
        fast_screen_single_chromosome rows psize asize dsteps) ∧
    (2 ≤ n_workers → 2 ≤ (chromKeys rows).length →
      fast_screen_variants_parallel rows psize asize dsteps n_workers =
        ((chromKeys rows).map (fun c =>
          fast_screen_single_chromosome (rows.filter (fun r => decide (r.chrom = c)))
            psize asize dsteps)).flatten) ∧
    List.Sorted strLeP (chromKeys rows) ∧
    (∀ c, c ∈ chromKeys rows ↔ c ∈ rows.map (·.chrom)) := by
  refine ⟨?_, ?_, ?_, ?_, ?_⟩
  · intro h
    subst h
    unfold fast_screen_variants_parallel
    simp
  · intro h
    unfold fast_screen_variants_parallel
    simp [h]
  · intro hw hc
    have h1 : ((chromKeys rows).length == 1) = false := by
      rw [beq_eq_false_iff_ne]
      omega
    have h2 : (n_workers == 1) = false := by
      rw [beq_eq_false_iff_ne]
      omega
    unfold fast_screen_variants_parallel
    simp [h1, h2]
  · exact List.sorted_insertionSort strLeP _
  · intro c
    unfold chromKeys
    rw [List.mem_insertionSort, List.mem_dedup]

/-- C3 (witness): concrete instantiations of the single-call and partitioned
branches. -/
theorem parallel_screening_characterization_witness :
    fast_screen_variants_parallel crossChromRows 20 300 5 1 =
      fast_screen_single_chromosome crossChromRows 20 300 5 ∧
    fast_screen_variants_parallel crossChromRows 20 300 5 2 =
      ((chromKeys crossChromRows).map (fun c =>
        fast_screen_single_chromosome (crossChromRows.filter (fun r => decide (r.chrom = c)))
          20 300 5)).flatten :=
  ⟨(parallel_screening_characterization crossChromRows 20 300 5 1).1 rfl,
   (parallel_screening_characterization crossChromRows 20 300 5 2).2.2.1 (by omega) (by decide)⟩

/-- C3 (counterexample): on two variants `chr1:1000` and `chr2:1140` the
result differs between `n_workers = 1` (whole frame screened as one group, so
1140 conflicts with the reverse primer region of 1000's windows) and
`n_workers = 2` (independent partitions, both compliant); and with the input
listing `chrB` before `chrA`, the parallel result is not the concatenation of
the per-chromosome screenings in first-encountered order. -/
theorem parallel_screening_not_worker_independent :
    fast_screen_variants_parallel crossChromRows 20 300 5 1 ≠
      fast_screen_variants_parallel crossChromRows 20 300 5 2 ∧
    fast_screen_variants_parallel unsortedChromRows 20 300 5 2 ≠
      fast_screen_single_chromosome [mkVar "chrB" 100] 20 300 5 ++
        fast_screen_single_chromosome [mkVar "chrA" 200] 20 300 5 := by
  decide

/-! The comprehensive pipeline and the quality score. -/

theorem spacing_filter_nonempty (rows : List Row) (ms : Int) (hne : rows ≠ []) :
    fast_apply_spacing_filter rows ms ≠ [] := by
  unfold fast_apply_spacing_filter
  rw [if_neg (by simpa [List.isEmpty_iff] using hne)]
  have hs : sortRows rows ≠ [] := by
    intro h
    have hperm := List.perm_insertionSort rowLe rows
    unfold sortRows at h
    rw [h] at hperm
    exact hne hperm.symm.eq_nil
  cases hsort : sortRows rows with
  | nil => exact absurd hsort hs
  | cons r rs =>
    rw [spacingSweep_cons]
    simp [lookupPos]

theorem lateStages_nonempty (rows : List Row) (tp : String) (ms : Int) (maxs : Nat)
    (hne : rows ≠ []) (hmax : 1 ≤ maxs) : lateStages rows tp ms maxs ≠ [] := by
  unfold lateStages
  rw [if_neg (by simpa [List.isEmpty_iff] using spacing_filter_nonempty rows ms hne)]
  have hl : List.insertionSort finalLe
      (scoreRows (fast_apply_spacing_filter rows ms) tp) ≠ [] := by
    intro h
    have hperm := List.perm_insertionSort finalLe
      (scoreRows (fast_apply_spacing_filter rows ms) tp)
    rw [h] at hperm
    have := hperm.symm.eq_nil
    unfold scoreRows at this
    rw [List.map_eq_nil_iff] at this
    exact spacing_filter_nonempty rows ms hne this
  by_cases hlen : maxs < (List.insertionSort finalLe
      (scoreRows (fast_apply_spacing_filter rows ms) tp)).length
  · rw [if_pos hlen]
    intro h
    rw [List.take_eq_nil_iff] at h
    rcases h with h | h
    · omega
    · exact hl h
  · rw [if_neg hlen]
    exact hl

/-- C8: the pipeline returns the empty outcome without warning when the
quality gate or the diagnostic filter yields no rows; when no screened row is
primer compliant it proceeds with the whole pre-screening diagnostic set and
raises the warning-level fallback signal, and with at least one marker slot
its result is then non-empty; the spacing stage inside `lateStages` yields the
empty outcome when it selects nothing, which never happens on a non-empty
input set. -/
theorem pipeline_empty_policy (tbl : Table) (tp minRel : String) (ms : Int)
    (maxs psize asize dsteps nw : Nat) (minv : Nat) (hrel : relValue minRel = some minv) :
    (fast_comprehensive_screen tbl tp minRel ms maxs psize asize dsteps nw =
      some (if (tbl.rows.filter (qualityGate minv)).isEmpty then ⟨[], false⟩
        else if (fast_filter_diagnostic_variants
            ⟨tbl.cols, tbl.rows.filter (qualityGate minv)⟩ tp).isEmpty then ⟨[], false⟩
        else if ((fast_screen_variants_parallel
              (fast_filter_diagnostic_variants
                ⟨tbl.cols, tbl.rows.filter (qualityGate minv)⟩ tp)
              psize asize dsteps nw).filter (·.primer_compliant)).isEmpty then
          ⟨lateStages (fast_filter_diagnostic_variants
            ⟨tbl.cols, tbl.rows.filter (qualityGate minv)⟩ tp) tp ms maxs, true⟩
        else
          ⟨lateStages ((fast_screen_variants_parallel
              (fast_filter_diagnostic_variants
                ⟨tbl.cols, tbl.rows.filter (qualityGate minv)⟩ tp)
              psize asize dsteps nw).filter (·.primer_compliant)) tp ms maxs, false⟩)) ∧
    (∀ rows : List Row, fast_apply_spacing_filter rows ms = [] →
      lateStages rows tp ms maxs = []) ∧
    (∀ rows : List Row, rows ≠ [] → 1 ≤ maxs → lateStages rows tp ms maxs ≠ []) := by
  refine ⟨?_, ?_, ?_⟩
  · unfold fast_comprehensive_screen
    rw [hrel]
    dsimp only
    cases h1 : (tbl.rows.filter (qualityGate minv)).isEmpty
    · cases h2 : (fast_filter_diagnostic_variants
          ⟨tbl.cols, tbl.rows.filter (qualityGate minv)⟩ tp).isEmpty
      · cases h3 : ((fast_screen_variants_parallel
            (fast_filter_diagnostic_variants
              ⟨tbl.cols, tbl.rows.filter (qualityGate minv)⟩ tp)
            psize asize dsteps nw).filter (·.primer_compliant)).isEmpty
        · unfold lateStages
          dsimp only
          cases hsp : (fast_apply_spacing_filter ((fast_screen_variants_parallel
              (fast_filter_diagnostic_variants
                ⟨tbl.cols, tbl.rows.filter (qualityGate minv)⟩ tp)
              psize asize dsteps nw).filter (·.primer_compliant)) ms).isEmpty
          · simp [hsp]
          · simp [List.isEmpty_iff.mp hsp]
        · unfold lateStages
          dsimp only
          cases hsp : (fast_apply_spacing_filter (fast_filter_diagnostic_variants
              ⟨tbl.cols, tbl.rows.filter (qualityGate minv)⟩ tp) ms).isEmpty
          · simp [hsp]
          · simp [List.isEmpty_iff.mp hsp]
      · simp
    · simp
  · intro rows hsp
    unfold lateStages
    rw [if_pos (by simpa [List.isEmpty_iff] using hsp)]
  · exact fun rows hne hmax => lateStages_nonempty rows tp ms maxs hne hmax

/-- C8 (witness): on `tblPipe` with `primer_size = 5`, `amplicon_size = 10`
and one displacement step, no variant is primer compliant, so the pipeline
falls back to the diagnostic set with the warning raised, and the result is
non-empty. -/
theorem pipeline_empty_policy_witness :
    fast_comprehensive_screen tblPipe "664c" "medium" 1 50 5 10 1 2 =
      some ⟨lateStages (fast_filter_diagnostic_variants
        ⟨tblPipe.cols, tblPipe.rows.filter (qualityGate 2)⟩ "664c") "664c" 1 50, true⟩ ∧
    lateStages (fast_filter_diagnostic_variants
      ⟨tblPipe.cols, tblPipe.rows.filter (qualityGate 2)⟩ "664c") "664c" 1 50 ≠ [] := by
  have h := pipeline_empty_policy tblPipe "664c" "medium" 1 50 5 10 1 2 2 rfl
  constructor
  · rw [h.1, if_neg (by decide), if_neg (by decide), if_pos (by decide)]
  · exact h.2.2 _ (by decide) (by omega)

/-- C9: the quality score is exactly the additive composite of the claim:
reliability base (low 1, medium 2, high 3), plus 2 for complete information,
plus 1 for F2 data, plus `min 2 (QUAL / 100)` with a missing `QUAL` counting
as 0, plus 1 for primer compliance. -/
theorem quality_score_formula (r : Row) (tp : String)
    (h : r.overall_reliability = some "low" ∨ r.overall_reliability = some "medium" ∨
      r.overall_reliability = some "high") :
    fast_quality_score r tp =
      (if r.overall_reliability = some "low" then 1
        else if r.overall_reliability = some "medium" then 2 else 3) +
        (if r.complete_info then 2 else 0) + (if r.has_f2_data then 1 else 0) +
        min 2 (r.qual.getD 0 / 100) + (if r.primer_compliant then 1 else 0) := by
  unfold fast_quality_score relBase relValue
  rcases h with h | h | h <;>
    rw [h] <;>
    cases hq : r.qual <;>
      cases hc : r.complete_info <;>
        cases hf : r.has_f2_data <;>
          cases hp : r.primer_compliant <;>
            simp

/-- C9 (witness): a high-reliability, complete, F2-backed, primer-compliant
row with `QUAL = 50` scores `3 + 2 + 1 + 1/2 + 1 = 15/2`. -/
theorem quality_score_formula_witness :
    fast_quality_score rowScore "664c" = 15 / 2 := by
  have h := quality_score_formula rowScore "664c" (Or.inr (Or.inr rfl))
  rw [h]
  norm_num [rowScore, min_def]
  rw [if_neg (by decide), if_neg (by decide)]
  norm_num

/-- C10: a row whose reliability tier is unknown (including missing) still
gets a score, with base 1 exactly as a `low` row, while the pipeline's
quality gate only passes rows whose tier is one of low, medium, high — so
inside `fast_comprehensive_screen` the default base is unreachable. -/
theorem unknown_reliability_default_base (tp : String) :
    (∀ r : Row, (∀ s, r.overall_reliability = some s → relValue s = none) →
      fast_quality_score r tp =
        1 + (if r.complete_info then 2 else 0) + (if r.has_f2_data then 1 else 0) +
          min 2 (r.qual.getD 0 / 100) + (if r.primer_compliant then 1 else 0)) ∧
    (∀ (minv : Nat) (r : Row), qualityGate minv r = true →
      r.overall_reliability = some "low" ∨ r.overall_reliability = some "medium" ∨
        r.overall_reliability = some "high") := by
  constructor
  · intro r hrel
    unfold fast_quality_score relBase
    cases hr : r.overall_reliability with
    | none =>
      dsimp only
      cases hq : r.qual <;>
        cases hc : r.complete_info <;>
          cases hf : r.has_f2_data <;>
            cases hp : r.primer_compliant <;>
              simp
    | some s =>
      dsimp only
      rw [hrel s hr]
      cases hq : r.qual <;>
        cases hc : r.complete_info <;>
          cases hf : r.has_f2_data <;>
            cases hp : r.primer_compliant <;>
              simp
  · intro minv r h
    unfold qualityGate at h
    rw [Bool.and_eq_true, Bool.and_eq_true] at h
    obtain ⟨⟨-, hmid⟩, -⟩ := h
    cases hrel : r.overall_reliability with
    | none =>
      rw [hrel] at hmid
      simp at hmid
    | some s =>
      rw [hrel] at hmid
      dsimp only at hmid
      cases hv : relValue s with
      | none =>
        rw [hv] at hmid
        simp at hmid
      | some v =>
        unfold relValue at hv
        split_ifs at hv with h1 h2 h3
        · exact Or.inl (by rw [h1])
        · exact Or.inr (Or.inl (by rw [h2]))
        · exact Or.inr (Or.inr (by rw [h3]))

/-- C10 (witness): the row with tier `"uncertain"` scores `1 + 2 = 3` through
the standalone scorer, and a gate-passing row's tier is one of the three
known tiers. -/
theorem unknown_reliability_default_base_witness :
    fast_quality_score rowOddRel "664c" = 3 ∧
      (rowScore.overall_reliability = some "low" ∨
        rowScore.overall_reliability = some "medium" ∨
        rowScore.overall_reliability = some "high") := by
  constructor
  · have h := (unknown_reliability_default_base "664c").1 rowOddRel (fun s hs => by
      have h2 : "uncertain" = s := Option.some.inj hs
      rw [← h2]
      rfl)
    rw [h]
    norm_num [rowOddRel, min_def]
  · exact (unknown_reliability_default_base "664c").2 2 rowScore (by decide)

end MarkerWizard
